import Mathlib

/-!
# Verification of `datatools/FAST/output.py`

A shallow embedding of the `FASToutput` class (file `src/FAST/output.py`):
a channel table for FAST wind-turbine time-series output, with parsing,
aliasing, derived quantities and tabular export.

Modelling conventions:

* Floating-point sample values are modelled as exact rationals `ℚ`; float
  rounding is out of scope.  The two genuinely non-rational numeric
  primitives, `numpy`'s elementwise `** 0.5` (square root) and `scipy`'s
  Butterworth filter, are passed in as explicit function parameters
  (`sqrtFn`, `filt`), so every statement about them is relative to an
  arbitrary such primitive.
* Python object state is modelled explicitly.  Because channel attributes
  hold *references* to `numpy` arrays (an alias shares the very array of
  its source channel), the model uses an arena: `arena : List (List ℚ)` is
  the heap of allocated arrays, and `attrs` binds a channel name to an
  index (reference) into the arena.  `setattr`/`getattr` on channel names
  become operations on `attrs`; in-place mutation of an array through one
  of the names bound to it is `mutateAt`.
* Python exceptions are the constructors of `PyErr`; a method that can
  raise returns `Except PyErr _` (paired with the final object state when
  the object is mutated before the raise, as `running_mean` does).
* `print` side effects carry no data and are dropped, except for
  `printStats`, whose printed rows are returned as data (`statRows`), and
  for the time lookup `self.t[N+1]` inside `running_mean`'s log line,
  which can raise `IndexError` and is therefore modelled.
-/

/-- Python exception kinds raised (directly or via `numpy`) by the code. -/
inductive PyErr where
  | attributeError (name : String)
  | keyError (name : String)
  | valueError
  | indexError
  | assertionError
  | nameError
  | overflowError
  deriving DecidableEq, Repr

/-- Association-list lookup by channel-name key (first binding wins, as a
Python attribute/dict lookup does after `aupdate`). -/
def alookup {β : Type} : List (String × β) → String → Option β
  | [], _ => none
  | p :: rest, k => if p.1 = k then some p.2 else alookup rest k

/-- Association-list update: replace the first binding of `k`, or append a
new one (Python `setattr` / dict assignment). -/
def aupdate {β : Type} : List (String × β) → String → β → List (String × β)
  | [], k, v => [(k, v)]
  | p :: rest, k, v => if p.1 = k then (k, v) :: rest else p :: aupdate rest k v

/-- The `FASToutput` object state: `outputs` and `units` are the lists set
by parsing (`self.outputs`, `self.units`), `attrs` are the channel-valued
attributes (`setattr(self, name, array)` bindings, as references into the
`arena` heap of arrays), `output_units` is the `self.output_units` dict and
`N` the stored row count. -/
structure FASToutput where
  outputs : List String
  units : List String
  attrs : List (String × Nat)
  output_units : List (String × String)
  arena : List (List ℚ)
  N : Nat
  deriving DecidableEq, Repr

/-- A fresh object with no channels (state of `__init__` before reading). -/
def emptyFAST : FASToutput := ⟨[], [], [], [], [], 0⟩

namespace FASToutput

/-- `getattr(self, name)` restricted to channel attributes: look up the
name's reference and dereference it, or raise `AttributeError`. -/
def getattrD (s : FASToutput) (name : String) : Except PyErr (List ℚ) :=
  match alookup s.attrs name with
  | some r => .ok (s.arena.getD r [])
  | none => .error (.attributeError name)

/-- Allocate a fresh array on the heap (a `numpy` array creation),
returning its reference. -/
def alloc (s : FASToutput) (d : List ℚ) : Nat × FASToutput :=
  (s.arena.length, { s with arena := s.arena ++ [d] })

/-- `setattr(self, name, <array referenced by r>)`. -/
def bindAttr (s : FASToutput) (name : String) (r : Nat) : FASToutput :=
  { s with attrs := aupdate s.attrs name r }

/-- `addOutput(self, name, data, units=None)` (lines 127-133): if the name
is not yet in `self.outputs`, append it, bind the attribute and record the
unit if given; otherwise print a notice and change nothing.  The `data`
argument is the reference `r` of the caller's array — `addOutput` stores
the reference itself, it never copies the array.  It is a total function:
no path raises. -/
def addOutput (s : FASToutput) (name : String) (r : Nat) (units : Option String) :
    FASToutput :=
  if name ∈ s.outputs then s
  else
    { s with
      outputs := s.outputs ++ [name],
      attrs := aupdate s.attrs name r,
      output_units :=
        match units with
        | some u => aupdate s.output_units name u
        | none => s.output_units }

/-- In-place elementwise mutation `getattr(self, name)[i] = v` performed by
a consumer holding the table: writes through the reference bound to
`name` (a no-op if the name is unbound or out of range, cases no claim
exercises). -/
def mutateAt (s : FASToutput) (name : String) (i : Nat) (v : ℚ) : FASToutput :=
  match alookup s.attrs name with
  | some r => { s with arena := s.arena.set r ((s.arena.getD r []).set i v) }
  | none => s

/-- `_setAlias(self, name, *aliases)` (lines 135-147): try each candidate
with `getattr`; on the first success call `addOutput(name, data)` — with
`data` the *same reference* the candidate is bound to — and return.  Every
Python path returns `None` (the `return` on line 145 is bare); the first
component types that returned value as an optional boolean, so it is
`none` on every path. -/
def setAlias (s : FASToutput) (name : String) : List String → Option Bool × FASToutput
  | [] => (none, s)
  | a :: rest =>
    match alookup s.attrs a with
    | some r => (none, addOutput s name r none)
    | none => setAlias s name rest

/-- The first candidate whose `getattr` succeeds, i.e. the first name
bound in `attrs` (the scan order of `_setAlias`). -/
def firstExisting (s : FASToutput) : List String → Option String
  | [] => none
  | c :: rest => if (alookup s.attrs c).isSome then some c else firstExisting s rest

/-- Follows the spec's words for §4.2 `resolveAlias(table, newName,
candidates) -> bool` ("true if bound"; the first candidate present is
copied under the new name via the table's add operation; nothing is
created otherwise).  Used only to compare the implementation's behaviour
against the spec's contract. -/
def resolveAliasSpec (s : FASToutput) (newName : String) (cands : List String) :
    Bool × FASToutput :=
  match firstExisting s cands with
  | some c =>
    (true,
      match alookup s.attrs c with
      | some r => addOutput s newName r none
      | none => s)
  | none => (false, s)

end FASToutput

/-! ## numpy primitives (1-D, exact-rational model) -/

/-- `numpy` 1-D broadcasting subtraction `a - b`: equal lengths subtract
elementwise; a length-1 operand broadcasts against the other; any other
shape pair raises `ValueError`. -/
def npSub (a b : List ℚ) : Except PyErr (List ℚ) :=
  if a.length = b.length then .ok (List.zipWith (fun x y => x - y) a b)
  else if a.length = 1 then .ok (b.map (fun y => a.headD 0 - y))
  else if b.length = 1 then .ok (a.map (fun x => x - b.headD 0))
  else .error .valueError

/-- `numpy` 1-D broadcasting addition (same shape rules as `npSub`). -/
def npAdd (a b : List ℚ) : Except PyErr (List ℚ) :=
  if a.length = b.length then .ok (List.zipWith (fun x y => x + y) a b)
  else if a.length = 1 then .ok (b.map (fun y => a.headD 0 + y))
  else if b.length = 1 then .ok (a.map (fun x => x + b.headD 0))
  else .error .valueError

/-- The convolution sum of `np.convolve(a, v, mode='valid')` for
`v.length ≤ a.length`: output index `k` is `Σ_{i<|v|} a[k+i] * v[|v|-1-i]`
(the kernel is flipped, as convolution demands). -/
def convCore (a v : List ℚ) : List ℚ :=
  (List.range (a.length - v.length + 1)).map (fun k =>
    ((List.range v.length).map (fun i =>
      a.getD (k + i) 0 * v.getD (v.length - 1 - i) 0)).sum)

/-- `np.convolve(a, v, mode='valid')`: raises `ValueError` on an empty
operand; if `v` is longer than `a` the operands are swapped (numpy
documents this), so the output length is `|len a - len v| + 1`. -/
def convolveValid (a v : List ℚ) : Except PyErr (List ℚ) :=
  if a.isEmpty ∨ v.isEmpty then .error .valueError
  else if v.length ≤ a.length then .ok (convCore a v)
  else .ok (convCore v a)

/-- Python `int()` on an exact value: truncation toward zero (`Int.tdiv`
is T-division; a normalized rational has a positive denominator). -/
def pyInt (q : ℚ) : ℤ :=
  Int.tdiv q.num q.den

/-- Python 2 slice `data[h:-h]` with `h = Navg/2 ≥ 0`: for `h = 0` the
upper bound `-0` is `0`, so the slice is *empty*; otherwise drop `h`
elements from each end. -/
def pyTrimSym (data : List ℚ) (h : Nat) : List ℚ :=
  if h = 0 then [] else (data.take (data.length - h)).drop h

namespace FASToutput

/-! ## Derivation operations -/

/-- `running_mean(self, outputName, Tavg)` (lines 176-183).
Steps, in source order: `N = int(Tavg/(self.t[1]-self.t[0]))` (attribute
lookup of `t`, indexing `t[1]`, float division — a zero `Δt` gives an
infinite/NaN quotient whose `int()` raises, modelled as `overflowError`);
`data = getattr(self, outputName)`; the boxcar kernel `np.ones((N,))/N`
(negative `N` raises in `np.ones`, `N = 0` gives an empty kernel rejected
by `np.convolve` — both merged into `valueError`); `np.convolve(..,
'valid')`; `addOutput(outputName + '_mean', mean)`; and the log line,
which indexes `self.t[N+1]` and raises `IndexError` when out of range —
*after* the channel was registered, so the mutated state is returned with
the error. -/
def running_mean (s : FASToutput) (outputName : String) (Tavg : ℚ) :
    FASToutput × Except PyErr (List ℚ) :=
  match s.getattrD "t" with
  | .error e => (s, .error e)
  | .ok t =>
    if t.length < 2 then (s, .error .indexError)
    else
      let dt := t.getD 1 0 - t.getD 0 0
      if dt = 0 then (s, .error .overflowError)
      else
        let Nw : ℤ := pyInt (Tavg / dt)
        match s.getattrD outputName with
        | .error e => (s, .error e)
        | .ok data =>
          if Nw ≤ 0 then (s, .error .valueError)
          else
            let n := Nw.toNat
            match convolveValid data (List.replicate n (1 / (n : ℚ))) with
            | .error e => (s, .error e)
            | .ok mean =>
              let p := s.alloc mean
              let s2 := addOutput p.2 (outputName ++ "_mean") p.1 none
              if t.length ≤ n + 1 then (s2, .error .indexError)
              else (s2, .ok mean)

/-- `low_pass_filtered_mean(self, outputName, fc=np.inf, order=2)` (lines
186-197).  `fc = none` stands for the default `np.inf`.  The Butterworth
design + `lfilter` pipeline is the abstract primitive
`filt order cutoff_norm data`, receiving the normalized cutoff
`fc / (0.5*fs)` (`none` when `fc` is infinite).  Source order: data
lookup, then `self.t` lookup and `t[1]` indexing (so a missing `t` raises
`AttributeError` before any filtering). -/
def low_pass_filtered_mean (s : FASToutput) (outputName : String) (fc : Option ℚ)
    (order : Nat) (filt : Nat → Option ℚ → List ℚ → List ℚ) :
    FASToutput × Except PyErr (List ℚ) :=
  match s.getattrD outputName with
  | .error e => (s, .error e)
  | .ok data =>
    match s.getattrD "t" with
    | .error e => (s, .error e)
    | .ok t =>
      if t.length < 2 then (s, .error .indexError)
      else
        let fs := 1 / (t.getD 1 0 - t.getD 0 0)
        let cutoff_norm : Option ℚ := fc.map (fun f => f / (fs / 2))
        let filtered := filt order cutoff_norm data
        let p := s.alloc filtered
        (addOutput p.2 (outputName ++ "_mean") p.1 none, .ok filtered)

/-- `fluctuations(self, outputName, meanName=None)` (lines 200-213).
When `meanName` is absent it defaults to `outputName + '_mean'`, computed
via `low_pass_filtered_mean` (default cutoff `np.inf`) if that attribute
does not exist.  If the data is longer than the mean, `Navg/2` samples
(integer division; Python 2 `/`) are cut from each end by the slice
`data[Navg/2:-Navg/2]` — which is *empty* when `Navg = 1` (see
`pyTrimSym`).  Then `data - mean` with numpy broadcasting, and the result
is registered as `outputName + '_fluc'`. -/
def fluctuations (s : FASToutput) (outputName : String) (meanName : Option String)
    (filt : Nat → Option ℚ → List ℚ → List ℚ) :
    FASToutput × Except PyErr (List ℚ) :=
  let step1 : FASToutput × Except PyErr String :=
    match meanName with
    | some m => (s, .ok m)
    | none =>
      let m := outputName ++ "_mean"
      if (alookup s.attrs m).isSome then (s, .ok m)
      else
        match low_pass_filtered_mean s outputName none 2 filt with
        | (s1, .error e) => (s1, .error e)
        | (s1, .ok _) => (s1, .ok m)
  match step1 with
  | (s1, .error e) => (s1, .error e)
  | (s1, .ok mname) =>
    match s1.getattrD outputName with
    | .error e => (s1, .error e)
    | .ok data0 =>
      match s1.getattrD mname with
      | .error e => (s1, .error e)
      | .ok mean =>
        let data :=
          if mean.length < data0.length then
            pyTrimSym data0 ((data0.length - mean.length) / 2)
          else data0
        match npSub data mean with
        | .error e => (s1, .error e)
        | .ok fluc =>
          let p := s1.alloc fluc
          (addOutput p.2 (outputName ++ "_fluc") p.1 none, .ok fluc)

/-- `__getitem__(self, key)` (lines 74-78): membership in `self.outputs`
guards the `getattr`; a miss raises `KeyError`. -/
def getitem (s : FASToutput) (key : String) : Except PyErr (List ℚ) :=
  if key ∈ s.outputs then s.getattrD key else .error (.keyError key)

/-- The accumulation loop of `vector_magnitude`: `mag_sq` starts as the
scalar `0.0` (`none`) and each component contributes `self[comp]**2` by
broadcasting addition. -/
def accumSquares (s : FASToutput) : List String → Option (List ℚ) →
    Except PyErr (Option (List ℚ))
  | [], acc => .ok acc
  | c :: rest, acc =>
    match s.getitem c with
    | .error e => .error e
    | .ok arr =>
      let sq := arr.map (fun x => x * x)
      match acc with
      | none => accumSquares s rest (some sq)
      | some a =>
        match npAdd a sq with
        | .error e => .error e
        | .ok a2 => accumSquares s rest (some a2)

/-- `vector_magnitude(self, outputname, *components)` (lines 216-221):
sum the squared components (via `__getitem__`), look up the unit of
`components[0]` in `self.output_units` (an empty component list raises
`IndexError`; a unitless first component raises `KeyError`), take the
elementwise square root (`** 0.5`, the abstract `sqrtFn`) and register the
result under `outputname` with that unit. -/
def vector_magnitude (s : FASToutput) (outputname : String) (components : List String)
    (sqrtFn : ℚ → ℚ) : FASToutput × Except PyErr Unit :=
  match accumSquares s components none with
  | .error e => (s, .error e)
  | .ok acc =>
    match components with
    | [] => (s, .error .indexError)
    | c0 :: _ =>
      match alookup s.output_units c0 with
      | none => (s, .error (.keyError c0))
      | some u =>
        let mag := (acc.getD []).map sqrtFn
        let p := s.alloc mag
        (addOutput p.2 outputname p.1 (some u), .ok ())

end FASToutput

/-! ## Parsing (`_readASCII`, `_readFASToutput`) and export (`to_pandas`) -/

/-- Python `str.strip('()')`: remove every leading and trailing character
belonging to the set `{'(', ')'}`. -/
def stripParens (s : String) : String :=
  let isP := fun c => c = '(' ∨ c = ')'
  String.mk (((s.toList.dropWhile isP).reverse.dropWhile isP).reverse)

/-- An ASCII output file after the `Nheaderlines` skipped free-text header
lines (their content never reaches the data model): the
whitespace-separated tokens of the names line and of the units line, and
the data rows as parsed floats.  `np.loadtxt`'s float parsing itself is
not modelled — rows arrive as numbers. -/
structure OutFile where
  namesLine : List String
  unitsLine : List String
  rows : List (List ℚ)
  deriving DecidableEq, Repr

/-- `_readASCII(self, fname, Nheaderlines)` (lines 80-98): read the names,
the parenthesis-stripped units, assert the two counts are equal; count the
remaining lines (a file with no data rows leaves the loop variable
`iline` unbound — `NameError`); `np.loadtxt` raises on ragged rows.  A
single data row makes `loadtxt` return a 1-D array, which makes the
column extraction in `_readFASToutput` fail — see `extractCols`.  Returns
`(outputs, units, data, N)`. -/
def readASCII (f : OutFile) :
    Except PyErr (List String × List String × List (List ℚ) × Nat) :=
  if f.namesLine.length ≠ (f.unitsLine.map stripParens).length then .error .assertionError
  else if f.rows.isEmpty then .error .nameError
  else if f.rows.all (fun r => r.length = (f.rows.headD []).length) then
    .ok (f.namesLine, f.unitsLine.map stripParens, f.rows, f.rows.length)
  else .error .valueError

/-- The column extraction `data[:,i] for i in range(M)` of
`_readFASToutput`'s attribute loop.  With a single data row — or a single
data column — `np.loadtxt` returned a 1-D array and `data[:,i]` raises
`IndexError` (too many indices); likewise when `i` reaches past the
column count. -/
def extractCols (rows : List (List ℚ)) (M : Nat) : Except PyErr (List (List ℚ)) :=
  if rows.length = 1 ∨ (rows.headD []).length = 1 then
    if M = 0 then .ok [] else .error .indexError
  else if M ≤ (rows.headD []).length then
    .ok ((List.range M).map (fun i => rows.map (fun r => r.getD i 0)))
  else .error .indexError

namespace FASToutput

/-- The `setattr`/`output_units` loop of `_readFASToutput` (lines
111-113) over parallel lists of names, columns and units: allocate each
column and bind it, recording its unit. -/
def bindColumns (s : FASToutput) :
    List String → List (List ℚ) → List String → FASToutput
  | [], _, _ => s
  | _ :: _, [], _ => s
  | _ :: _, _ :: _, [] => s
  | n :: ns, c :: cs, u :: us =>
    bindColumns
      { s with
        arena := s.arena ++ [c],
        attrs := aupdate s.attrs n s.arena.length,
        output_units := aupdate s.output_units n u } ns cs us

/-- The default-alias block of `_readFASToutput` (lines 116-125), applied
in source order. -/
def applyDefaultAliases (s : FASToutput) : FASToutput :=
  let s1 := (setAlias s "t" ["Time"]).2
  let s2 := (setAlias s1 "P" ["RotPwr"]).2
  let s3 := (setAlias s2 "T"
    ["RotThrust", "LSShftFxa", "LSShftFxs", "LSSGagFxa", "LSSGagFxs"]).2
  let s4 := (setAlias s3 "rpm" ["LSSTipVxa"]).2
  let s5 := (setAlias s4 "genspd" ["HSShftV"]).2
  let s6 := (setAlias s5 "pitch1" ["PtchPMzc1"]).2
  let s7 := (setAlias s6 "pitch2" ["PtchPMzc2"]).2
  let s8 := (setAlias s7 "pitch3" ["PtchPMzc3"]).2
  (setAlias s8 "pitch" ["pitch1"]).2

/-- `_readFASToutput(self, fname)` for the ASCII path (lines 104-125):
read the file, bind every column as an attribute, check `self.Time` exists
(`AttributeError` otherwise) with `len(self.Time) == self.N`
(`AssertionError` otherwise), then optionally seed the default aliases.
All parse-time errors abort construction, so only the final state is
returned. -/
def readFASToutput (f : OutFile) (default_aliases : Bool) : Except PyErr FASToutput :=
  match readASCII f with
  | .error e => .error e
  | .ok (outputs, units, rows, n) =>
    match extractCols rows outputs.length with
    | .error e => .error e
    | .ok cols =>
      match (bindColumns ⟨outputs, units, [], [], [], n⟩ outputs cols units).getattrD
          "Time" with
      | .error e => .error e
      | .ok timeData =>
        if timeData.length = n then
          .ok
            (if default_aliases then
              applyDefaultAliases (bindColumns ⟨outputs, units, [], [], [], n⟩ outputs cols units)
            else bindColumns ⟨outputs, units, [], [], [], n⟩ outputs cols units)
        else .error .assertionError

/-! ## `printStats` and `to_pandas` -/

end FASToutput

/-- `np.min` on a nonempty 1-D array (the empty case raises and is kept
out of this helper). -/
def listMin : List ℚ → ℚ
  | [] => 0
  | d :: ds => ds.foldl min d

/-- `np.max` on a nonempty 1-D array. -/
def listMax : List ℚ → ℚ
  | [] => 0
  | d :: ds => ds.foldl max d

/-- `np.mean`. -/
def listMean (l : List ℚ) : ℚ := l.sum / (l.length : ℚ)

/-- The population variance (`ddof=0`): `np.std` is its square root. -/
def listVar (l : List ℚ) : ℚ :=
  ((l.map (fun x => (x - listMean l) * (x - listMean l))).sum) / (l.length : ℚ)

/-- One printed row of `printStats`: channel name, unit and the four
`numpy` statistics. -/
structure StatRow where
  name : String
  unit : String
  smin : ℚ
  smax : ℚ
  smean : ℚ
  sstd : ℚ
  deriving DecidableEq, Repr

namespace FASToutput

/-- The row loop of `printStats` over `zip(self.outputs, self.units)`:
for each pair look the channel up and compute `np.min`, `np.max`,
`np.mean` and `np.std` (population standard deviation, the square root —
`sqrtFn` — of the mean squared deviation).  `np.min` of an empty array
raises `ValueError`. -/
def statRows (s : FASToutput) (sqrtFn : ℚ → ℚ) :
    List (String × String) → Except PyErr (List StatRow)
  | [] => .ok []
  | (o, u) :: rest =>
    match s.getattrD o with
    | .error e => .error e
    | .ok [] => .error .valueError
    | .ok (d :: ds) =>
      match statRows s sqrtFn rest with
      | .error e => .error e
      | .ok rows =>
        .ok (⟨o, u, listMin (d :: ds), listMax (d :: ds), listMean (d :: ds),
          sqrtFn (listVar (d :: ds))⟩ :: rows)

/-- `printStats(self)` (lines 149-162): one row per entry of
`zip(self.outputs, self.units)` — `zip` stops at the shorter list, so
channels beyond `len(self.units)` are not reported. -/
def printStats (s : FASToutput) (sqrtFn : ℚ → ℚ) : Except PyErr (List StatRow) :=
  s.statRows sqrtFn (s.outputs.zip s.units)

end FASToutput

/-- A `pandas.DataFrame` after `set_index`: the index column (name and
values) and the remaining columns in order. -/
structure DataFrame where
  indexName : String
  index : List ℚ
  cols : List (String × List ℚ)
  deriving DecidableEq, Repr

/-- Remove the first column with the given name (what
`DataFrame.set_index` does to the column block). -/
def removeKey : List (String × List ℚ) → String → List (String × List ℚ)
  | [], _ => []
  | p :: rest, k => if p.1 = k then rest else p :: removeKey rest k

namespace FASToutput

/-- The column-assignment loop `df[output] = getattr(self, output)` of
`to_pandas`: a missing attribute raises `AttributeError`; after the first
column fixes the frame length, a column of a different length raises
(`ValueError` in pandas). -/
def buildCols (s : FASToutput) : List String → Option Nat →
    Except PyErr (List (String × List ℚ))
  | [], _ => .ok []
  | n :: rest, len? =>
    match s.getattrD n with
    | .error e => .error e
    | .ok col =>
      match len? with
      | some L =>
        if col.length = L then
          match buildCols s rest (some L) with
          | .error e => .error e
          | .ok cs => .ok ((n, col) :: cs)
        else .error .valueError
      | none =>
        match buildCols s rest (some col.length) with
        | .error e => .error e
        | .ok cs => .ok ((n, col) :: cs)

/-- `to_pandas(self)` (lines 224-229): assemble one column per entry of
`self.outputs` in order, then `df.set_index('Time')` — `KeyError` if no
`Time` column, otherwise `Time` becomes the index and leaves the column
block. -/
def to_pandas (s : FASToutput) : Except PyErr DataFrame :=
  match s.buildCols s.outputs none with
  | .error e => .error e
  | .ok cs =>
    match alookup cs "Time" with
    | none => .error (.keyError "Time")
    | some idx => .ok ⟨"Time", idx, removeKey cs "Time"⟩

end FASToutput

/-! ## Helper lemmas on association lists and list indexing -/

theorem alookup_aupdate_self {β : Type} (l : List (String × β)) (k : String) (v : β) :
    alookup (aupdate l k v) k = some v := by
  induction l with
  | nil => simp [aupdate, alookup]
  | cons p rest ih =>
    by_cases h : p.1 = k
    · simp [aupdate, h, alookup]
    · simp [aupdate, h, alookup, ih]

theorem alookup_aupdate_ne {β : Type} (l : List (String × β)) {k k2 : String} (v : β)
    (h : k ≠ k2) : alookup (aupdate l k v) k2 = alookup l k2 := by
  induction l with
  | nil => simp [aupdate, alookup, h]
  | cons p rest ih =>
    by_cases hp : p.1 = k
    · simp [aupdate, hp, alookup, h]
    · simp [aupdate, hp, alookup, ih]

theorem mem_of_mem_aupdate {β : Type} {p : String × β} :
    ∀ {l : List (String × β)} {k : String} {v : β},
      p ∈ aupdate l k v → p = (k, v) ∨ p ∈ l := by
  intro l
  induction l with
  | nil => intro k v h; simp [aupdate] at h; exact Or.inl h
  | cons q rest ih =>
    intro k v h
    by_cases hq : q.1 = k
    · simp only [aupdate, if_pos hq, List.mem_cons] at h
      rcases h with h | h
      · exact Or.inl h
      · exact Or.inr (List.mem_cons_of_mem _ h)
    · simp only [aupdate, if_neg hq, List.mem_cons] at h
      rcases h with h | h
      · exact Or.inr (h ▸ List.mem_cons_self _ _)
      · rcases ih h with h2 | h2
        · exact Or.inl h2
        · exact Or.inr (List.mem_cons_of_mem _ h2)

theorem getD_set_ne {α : Type} :
    ∀ (l : List α) (i j : Nat) (x d : α), i ≠ j → (l.set i x).getD j d = l.getD j d
  | [], _, _, _, _, _ => rfl
  | _ :: _, 0, 0, _, _, h => absurd rfl h
  | _ :: _, 0, _ + 1, _, _, _ => rfl
  | _ :: _, _ + 1, 0, _, _, _ => rfl
  | _ :: l, i + 1, j + 1, x, d, h =>
    getD_set_ne l i j x d (fun hh => h (by rw [hh]))

theorem getD_append_left {α : Type} :
    ∀ (l l2 : List α) (i : Nat) (d : α), i < l.length → (l ++ l2).getD i d = l.getD i d
  | [], _, i, _, h => absurd h (by simp)
  | _ :: _, _, 0, _, _ => rfl
  | _ :: l, l2, i + 1, d, h => getD_append_left l l2 i d (by simpa using h)

theorem getD_append_len {α : Type} :
    ∀ (l : List α) (c : α) (rest : List α) (d : α), (l ++ c :: rest).getD l.length d = c
  | [], _, _, _ => rfl
  | _ :: l, c, rest, d => getD_append_len l c rest d

theorem mem_zip_left {α β : Type} :
    ∀ {l : List α} {l2 : List β} {a : α}, a ∈ l → l.length ≤ l2.length →
      ∃ b, (a, b) ∈ l.zip l2 := by
  intro l
  induction l with
  | nil => intro l2 a h; simp at h
  | cons x rest ih =>
    intro l2 a h hlen
    cases l2 with
    | nil => simp at hlen
    | cons y ys =>
      rcases List.mem_cons.mp h with h | h
      · exact ⟨y, by simp [h]⟩
      · rcases ih h (by simpa using hlen) with ⟨b, hb⟩
        exact ⟨b, List.mem_cons_of_mem _ hb⟩

theorem alookup_isSome_of_mem {β : Type} {l : List (String × β)} {k : String} {v : β}
    (h : (k, v) ∈ l) : ∃ v2, alookup l k = some v2 := by
  induction l with
  | nil => simp at h
  | cons p rest ih =>
    by_cases hp : p.1 = k
    · exact ⟨p.2, by simp [alookup, hp]⟩
    · rcases List.mem_cons.mp h with h2 | h2
      · exact absurd (by rw [← h2]) hp
      · rcases ih h2 with ⟨v2, hv2⟩
        exact ⟨v2, by simp [alookup, hp, hv2]⟩

/-! ## Invariants and state lemmas -/

namespace FASToutput

/-- Heap well-formedness: every bound reference points into the arena. -/
def WFrefs (s : FASToutput) : Prop :=
  ∀ p ∈ s.attrs, p.2 < s.arena.length

theorem addOutput_of_mem {s : FASToutput} {name : String} (r : Nat) (u : Option String)
    (h : name ∈ s.outputs) : addOutput s name r u = s := by
  simp [addOutput, h]

theorem addOutput_not_mem_outputs {s : FASToutput} {name : String} (r : Nat)
    (u : Option String) (h : name ∉ s.outputs) :
    (addOutput s name r u).outputs = s.outputs ++ [name] := by
  simp [addOutput, h]

theorem addOutput_not_mem_attrs {s : FASToutput} {name : String} (r : Nat)
    (u : Option String) (h : name ∉ s.outputs) :
    (addOutput s name r u).attrs = aupdate s.attrs name r := by
  simp [addOutput, h]

theorem addOutput_arena (s : FASToutput) (name : String) (r : Nat) (u : Option String) :
    (addOutput s name r u).arena = s.arena := by
  by_cases h : name ∈ s.outputs <;> simp [addOutput, h]

/-- After allocating `d` and registering it under a fresh name, `getattr`
of that name yields `d`. -/
theorem getattrD_addOutput_alloc (s : FASToutput) {name : String} (d : List ℚ)
    (u : Option String) (h : name ∉ s.outputs) :
    (addOutput (s.alloc d).2 name (s.alloc d).1 u).getattrD name = .ok d := by
  have houts : name ∉ (s.alloc d).2.outputs := by simpa [alloc] using h
  rw [getattrD, addOutput_not_mem_attrs _ _ houts, alookup_aupdate_self,
    addOutput_arena]
  simp [alloc, getD_append_len]


theorem mem_of_alookup {β : Type} :
    ∀ {l : List (String × β)} {k : String} {r : β}, alookup l k = some r → (k, r) ∈ l := by
  intro l
  induction l with
  | nil => intro k r h; simp [alookup] at h
  | cons p rest ih =>
    intro k r h
    by_cases hp : p.1 = k
    · simp only [alookup, if_pos hp, Option.some.injEq] at h
      have : (k, r) = p := by rw [← hp, ← h]
      exact this ▸ List.mem_cons_self _ _
    · simp only [alookup, if_neg hp] at h
      exact List.mem_cons_of_mem _ (ih h)

/-- `bindColumns` touches only `arena`, `attrs` and `output_units`. -/
theorem bindColumns_outputs :
    ∀ (ns : List String) (cs : List (List ℚ)) (us : List String) (s : FASToutput),
      (bindColumns s ns cs us).outputs = s.outputs := by
  intro ns
  induction ns with
  | nil => intro cs us s; rw [bindColumns]
  | cons n ns ih =>
    intro cs us s
    cases cs with
    | nil => rw [bindColumns]
    | cons c cs =>
      cases us with
      | nil => rw [bindColumns]
      | cons u us => rw [bindColumns, ih]

theorem bindColumns_units :
    ∀ (ns : List String) (cs : List (List ℚ)) (us : List String) (s : FASToutput),
      (bindColumns s ns cs us).units = s.units := by
  intro ns
  induction ns with
  | nil => intro cs us s; rw [bindColumns]
  | cons n ns ih =>
    intro cs us s
    cases cs with
    | nil => rw [bindColumns]
    | cons c cs =>
      cases us with
      | nil => rw [bindColumns]
      | cons u us => rw [bindColumns, ih]

/-- Binding a list of columns never binds a name outside the list. -/
theorem alookup_bindColumns_not_mem :
    ∀ (ns : List String) (cs : List (List ℚ)) (us : List String) (s : FASToutput)
      (name : String), name ∉ ns →
      alookup (bindColumns s ns cs us).attrs name = alookup s.attrs name := by
  intro ns
  induction ns with
  | nil => intro cs us s name _; rw [bindColumns]
  | cons n ns ih =>
    intro cs us s name hn
    have hn2 : name ∉ ns := fun h => hn (List.mem_cons_of_mem _ h)
    have hne : n ≠ name := by rintro rfl; exact hn (List.mem_cons_self _ _)
    cases cs with
    | nil => rw [bindColumns]
    | cons c cs =>
      cases us with
      | nil => rw [bindColumns]
      | cons u us =>
        rw [bindColumns, ih _ _ _ _ hn2]
        exact alookup_aupdate_ne s.attrs s.arena.length hne

theorem WFrefs_bindColumns :
    ∀ (ns : List String) (cs : List (List ℚ)) (us : List String) (s : FASToutput),
      WFrefs s → WFrefs (bindColumns s ns cs us) := by
  intro ns
  induction ns with
  | nil => intro cs us s h; rw [bindColumns]; exact h
  | cons n ns ih =>
    intro cs us s h
    cases cs with
    | nil => rw [bindColumns]; exact h
    | cons c cs =>
      cases us with
      | nil => rw [bindColumns]; exact h
      | cons u us =>
        rw [bindColumns]
        refine ih _ _ _ ?_
        intro p hp
        rcases mem_of_mem_aupdate hp with h2 | h2
        · subst h2; simp
        · have := h p h2
          simp only [List.length_append, List.length_cons, List.length_nil]
          omega

/-- For valid references, `getattr` is stable under binding a disjoint set
of names (the arena only grows at the end). -/
theorem getattrD_bindColumns_stable :
    ∀ (ns : List String) (cs : List (List ℚ)) (us : List String) (s : FASToutput)
      (name : String), WFrefs s → name ∉ ns →
      (bindColumns s ns cs us).getattrD name = s.getattrD name := by
  intro ns
  induction ns with
  | nil => intro cs us s name _ _; rw [bindColumns]
  | cons n ns ih =>
    intro cs us s name hWF hn
    have hn2 : name ∉ ns := fun h => hn (List.mem_cons_of_mem _ h)
    have hne : n ≠ name := by rintro rfl; exact hn (List.mem_cons_self _ _)
    cases cs with
    | nil => rw [bindColumns]
    | cons c cs =>
      cases us with
      | nil => rw [bindColumns]
      | cons u us =>
        rw [bindColumns]
        have hWF2 : WFrefs
            { s with
              arena := s.arena ++ [c],
              attrs := aupdate s.attrs n s.arena.length,
              output_units := aupdate s.output_units n u } := by
          intro p hp
          rcases mem_of_mem_aupdate hp with h2 | h2
          · subst h2; simp
          · have := hWF p h2
            simp only [List.length_append, List.length_cons, List.length_nil]
            omega
        rw [ih _ _ _ _ hWF2 hn2]
        simp only [getattrD, alookup_aupdate_ne s.attrs s.arena.length hne]
        cases hr : alookup s.attrs name with
        | none => rfl
        | some r =>
          have hlt : r < s.arena.length := hWF _ (mem_of_alookup hr)
          show Except.ok ((s.arena ++ [c]).getD r []) = Except.ok (s.arena.getD r [])
          rw [getD_append_left _ _ _ _ hlt]

/-- Main parse-state lemma: after `bindColumns` over parallel lists with
distinct names, `getattr` of a bound name yields its column. -/
theorem getattrD_bindColumns_mem :
    ∀ (ns : List String) (cs : List (List ℚ)) (us : List String) (s : FASToutput)
      (n : String) (c : List ℚ), ns.Nodup → WFrefs s → ns.length ≤ us.length →
      (n, c) ∈ ns.zip cs →
      (bindColumns s ns cs us).getattrD n = .ok c := by
  intro ns
  induction ns with
  | nil => intro cs us s n c _ _ _ h; simp at h
  | cons n0 ns ih =>
    intro cs us s n c hnd hWF hlen hmem
    cases cs with
    | nil => simp at hmem
    | cons c0 cs =>
      cases us with
      | nil => simp at hlen
      | cons u us =>
        rw [bindColumns]
        have hWF2 : WFrefs
            { s with
              arena := s.arena ++ [c0],
              attrs := aupdate s.attrs n0 s.arena.length,
              output_units := aupdate s.output_units n0 u } := by
          intro p hp
          rcases mem_of_mem_aupdate hp with h2 | h2
          · subst h2; simp
          · have := hWF p h2
            simp only [List.length_append, List.length_cons, List.length_nil]
            omega
        rcases (by simpa using hmem : n = n0 ∧ c = c0 ∨ (n, c) ∈ ns.zip cs) with
          ⟨rfl, rfl⟩ | h
        · have hout : n ∉ ns := (List.nodup_cons.mp hnd).1
          rw [getattrD_bindColumns_stable _ _ _ _ _ hWF2 hout]
          simp only [getattrD, alookup_aupdate_self]
          rw [getD_append_len]
        · exact ih _ _ _ _ _ (List.nodup_cons.mp hnd).2 hWF2 (by simpa using hlen) h

end FASToutput

/-- Decidable equality for `Except`, so concrete results can be checked
by `decide`. -/
instance {e a : Type} [DecidableEq e] [DecidableEq a] : DecidableEq (Except e a) :=
  fun x y => by
    cases x <;> cases y <;>
      first
        | exact .isFalse (fun hh => Except.noConfusion hh)
        | (rename_i v w
           exact if h : v = w then .isTrue (by rw [h])
             else .isFalse (fun hh => h (by cases hh; rfl)))

/-! ## Claim C3 — duplicate `add` is a silent no-op -/

/-- Claim C3: adding a channel under a name already present in
`self.outputs` is a no-op (and `addOutput` is total — no path raises).
First conjunct: the general no-op law.  Second conjunct: the add-twice
scenario — allocate `d1`, add it under `name`, allocate different data
`d2`, add it under the same name: the second call changes nothing and the
table still yields the first-added `d1`. -/
theorem addOutput_duplicate_noop (s : FASToutput) (name : String)
    (d1 d2 : List ℚ) (u1 u2 : Option String) (r : Nat) :
    (name ∈ s.outputs → FASToutput.addOutput s name r u1 = s) ∧
    (name ∉ s.outputs →
      FASToutput.addOutput
          ((FASToutput.addOutput (s.alloc d1).2 name (s.alloc d1).1 u1).alloc d2).2 name
          ((FASToutput.addOutput (s.alloc d1).2 name (s.alloc d1).1 u1).alloc d2).1 u2
        = ((FASToutput.addOutput (s.alloc d1).2 name (s.alloc d1).1 u1).alloc d2).2 ∧
      ((FASToutput.addOutput (s.alloc d1).2 name (s.alloc d1).1 u1).alloc
          d2).2.getattrD name = .ok d1) := by
  constructor
  · exact fun h => FASToutput.addOutput_of_mem r u1 h
  · intro h
    have h1 : name ∉ (s.alloc d1).2.outputs := h
    set X := FASToutput.addOutput (s.alloc d1).2 name (s.alloc d1).1 u1 with hX
    have houts : X.outputs = s.outputs ++ [name] :=
      FASToutput.addOutput_not_mem_outputs _ _ h1
    have hattrs : X.attrs = aupdate s.attrs name s.arena.length :=
      FASToutput.addOutput_not_mem_attrs _ _ h1
    have harena : X.arena = s.arena ++ [d1] := FASToutput.addOutput_arena _ _ _ _
    have hmem2 : name ∈ (X.alloc d2).2.outputs := by
      show name ∈ X.outputs
      rw [houts]
      exact List.mem_append_right _ (List.mem_cons_self _ _)
    refine ⟨FASToutput.addOutput_of_mem _ _ hmem2, ?_⟩
    show (match alookup X.attrs name with
      | some r2 => Except.ok ((X.arena ++ [d2]).getD r2 [])
      | none => Except.error (PyErr.attributeError name)) = Except.ok d1
    rw [hattrs, alookup_aupdate_self, harena]
    show Except.ok ((s.arena ++ [d1] ++ [d2]).getD s.arena.length []) = Except.ok d1
    rw [List.append_assoc, List.singleton_append]
    rw [getD_append_len]

/-- Witness for C3 on a concrete table: add `[1]` then `[2]` under the
fresh name `x`; the retained data is `[1]`. -/
theorem addOutput_duplicate_noop_witness :
    "x" ∉ emptyFAST.outputs ∧
    ((FASToutput.addOutput (emptyFAST.alloc [1]).2 "x" (emptyFAST.alloc [1]).1
        none).alloc [2]).2.getattrD "x" = .ok [1] :=
  ⟨by decide,
    ((addOutput_duplicate_noop emptyFAST "x" [1] [2] none none 0).2 (by decide)).2⟩

/-! ## Claim C4 — `_setAlias` scan order, and its (absent) return value -/

/-- Channel table with the single channel `B = [1, 2, 3]`. -/
def cT4 : FASToutput := ⟨["B"], ["-"], [("B", 0)], [("B", "-")], [[1, 2, 3]], 3⟩

/-- Claim C4 counterexample: on the spec's own example (candidates
`[A, B]`, only `B` present with value `[1,2,3]`) the alias is bound and
readable, but the call's returned value is Python `None`, not `true`; and
when no candidate exists nothing is created, yet the returned value is
again `None`, not `false`. -/
theorem setAlias_counterexample :
    (cT4.setAlias "X" ["A", "B"]).1 ≠ some true ∧
    (cT4.setAlias "X" ["A", "B"]).2.getattrD "X" = .ok [1, 2, 3] ∧
    (cT4.setAlias "Y" ["A", "C"]).1 ≠ some false ∧
    (cT4.setAlias "Y" ["A", "C"]).2 = cT4 := by decide

/-- Claim C4 (amended): `_setAlias` scans the candidates in order and the
first name bound in the table is registered — by reference — under the
new name via `addOutput`; if no candidate exists the table is unchanged.
This is exactly the state component of the spec's `resolveAlias` contract
(`resolveAliasSpec`); but the implementation returns `None` on every path,
never a boolean. -/
theorem setAlias_behavior (s : FASToutput) (name : String) (cands : List String) :
    (s.setAlias name cands).1 = none ∧
    (s.setAlias name cands).2 = (s.resolveAliasSpec name cands).2 := by
  induction cands with
  | nil => exact ⟨rfl, rfl⟩
  | cons a rest ih =>
    by_cases h : (alookup s.attrs a).isSome
    · obtain ⟨r, hr⟩ := Option.isSome_iff_exists.mp h
      constructor
      · simp [FASToutput.setAlias, hr]
      · simp [FASToutput.setAlias, FASToutput.resolveAliasSpec,
          FASToutput.firstExisting, hr]
    · have hr : alookup s.attrs a = none := Option.not_isSome_iff_eq_none.mp h
      constructor
      · simpa [FASToutput.setAlias, hr] using ih.1
      · simp only [FASToutput.setAlias, hr]
        rw [ih.2]
        simp [FASToutput.resolveAliasSpec, FASToutput.firstExisting, hr]

/-! ## Claim C5 — channel independence and alias sharing -/

/-- Claim C5 (amended): two channel names bound to *distinct* arrays are
independent — in-place mutation through one never changes what the other
yields.  (The unamended claim fails precisely because an alias is bound to
the *same* array as its source, see `alias_shares_array`.) -/
theorem mutate_distinct_refs (s : FASToutput) (n1 n2 : String) (r1 r2 i : Nat) (v : ℚ)
    (h1 : alookup s.attrs n1 = some r1) (h2 : alookup s.attrs n2 = some r2)
    (hne : r1 ≠ r2) :
    (s.mutateAt n1 i v).getattrD n2 = s.getattrD n2 := by
  simp only [FASToutput.mutateAt, h1, FASToutput.getattrD, h2]
  show Except.ok ((s.arena.set r1 ((s.arena.getD r1 []).set i v)).getD r2 [])
      = Except.ok (s.arena.getD r2 [])
  rw [getD_set_ne _ _ _ _ _ hne]

/-- Two-channel table with separately allocated arrays `A = [1]`,
`B = [2]`. -/
def cT5w : FASToutput := ⟨["A", "B"], [], [("A", 0), ("B", 1)], [], [[1], [2]], 1⟩

/-- Witness for the amended C5: mutating `A` (reference 0) leaves `B`
(reference 1) unchanged. -/
theorem mutate_distinct_refs_witness :
    alookup cT5w.attrs "A" = some 0 ∧ alookup cT5w.attrs "B" = some 1 ∧
    (cT5w.mutateAt "A" 0 9).getattrD "B" = cT5w.getattrD "B" :=
  ⟨by decide, by decide,
    mutate_distinct_refs cT5w "A" "B" 0 1 0 9 (by decide) (by decide) (by decide)⟩

/-- Two-channel output file used for the C5 counterexample. -/
def cFile5 : OutFile := ⟨["Time", "RotPwr"], ["(s)", "(kW)"], [[0, 1], [1, 2]]⟩

/-- The table parsed from `cFile5` with default aliases (so `t` aliases
`Time`). -/
def s5 : FASToutput := (FASToutput.readFASToutput cFile5 true).toOption.getD emptyFAST

/-- Claim C5 counterexample: on the parsed table with default aliases,
`t` and `Time` are two distinct present names, yet mutating the `t`
channel in place changes what `get("Time")` yields — the alias entry is
the *same* array as its source, not an owned copy. -/
theorem alias_shares_array :
    FASToutput.readFASToutput cFile5 true = .ok s5 ∧
    "t" ≠ "Time" ∧
    "t" ∈ s5.outputs ∧ "Time" ∈ s5.outputs ∧
    s5.getattrD "t" = .ok [0, 1] ∧
    s5.getattrD "Time" = .ok [0, 1] ∧
    (s5.mutateAt "t" 0 99).getattrD "Time" = .ok [99, 1] ∧
    (s5.mutateAt "t" 0 99).getattrD "Time" ≠ s5.getattrD "Time" := by decide

/-! ## Parse inversion helpers -/

/-- A successful `extractCols` yields exactly the columns of the matrix. -/
theorem extractCols_ok {rows : List (List ℚ)} {M : Nat} {cols : List (List ℚ)}
    (h : extractCols rows M = .ok cols) :
    cols = (List.range M).map (fun i => rows.map (fun r => r.getD i 0)) := by
  unfold extractCols at h
  split at h
  · split at h
    · cases h
      rename_i hM0
      rw [hM0]
      rfl
    · cases h
  · split at h
    · cases h
      rfl
    · cases h

/-- Inversion of a successful aliasless parse: the state is exactly
`bindColumns` of the parsed columns over a fresh object, and the names
and units lines have equal token counts. -/
theorem readFASToutput_false_inv (f : OutFile) (s : FASToutput)
    (h : FASToutput.readFASToutput f false = .ok s) :
    f.namesLine.length = (f.unitsLine.map stripParens).length ∧
    ∃ cols, extractCols f.rows f.namesLine.length = .ok cols ∧
      s = FASToutput.bindColumns
            ⟨f.namesLine, f.unitsLine.map stripParens, [], [], [], f.rows.length⟩
            f.namesLine cols (f.unitsLine.map stripParens) := by
  unfold FASToutput.readFASToutput at h
  split at h
  · exact Except.noConfusion h
  · rename_i q outputs units rows n hA
    unfold readASCII at hA
    split at hA
    · exact Except.noConfusion hA
    · split at hA
      · exact Except.noConfusion hA
      · split at hA
        · rename_i hlen hemp hall
          cases hA
          refine ⟨by omega, ?_⟩
          split at h
          · exact Except.noConfusion h
          · rename_i cols hB
            refine ⟨cols, hB, ?_⟩
            split at h
            · exact Except.noConfusion h
            · rename_i timeData hC
              split at h
              · simp only [Bool.false_eq_true, if_false] at h
                exact (Except.ok.inj h).symm
              · exact Except.noConfusion h
        · exact Except.noConfusion hA

/-! ## Claim C10 — time axis is read through the `t` alias only -/

theorem getattrD_error_of_none (s : FASToutput) (n : String)
    (h : alookup s.attrs n = none) : s.getattrD n = .error (.attributeError n) := by
  simp [FASToutput.getattrD, h]

/-- Claim C10: every derivation needing the sampling interval reads the
time axis from the attribute `t` (not `Time`).  On a table parsed with
`default_aliases=False` from a file whose names line does not contain
`t`, `running_mean` and `low_pass_filtered_mean` fail with
`AttributeError` on `t` — as does `fluctuations` when it must compute the
default mean (no `<name>_mean` channel exists) — instead of using the
`Time` channel. -/
theorem t_alias_required (f : OutFile) (s : FASToutput) (name : String) (w fc : ℚ)
    (ord : Nat) (filt : Nat → Option ℚ → List ℚ → List ℚ)
    (hparse : FASToutput.readFASToutput f false = .ok s)
    (hnd : f.namesLine.Nodup)
    (ht : "t" ∉ f.namesLine)
    (hn : name ∈ f.namesLine) :
    (s.running_mean name w).2 = .error (.attributeError "t") ∧
    (s.low_pass_filtered_mean name (some fc) ord filt).2
      = .error (.attributeError "t") ∧
    (name ++ "_mean" ∉ f.namesLine →
      (s.fluctuations name none filt).2 = .error (.attributeError "t")) := by
  obtain ⟨hlen, cols, hcols, hs⟩ := readFASToutput_false_inv f s hparse
  have hcl : cols.length = f.namesLine.length := by
    rw [extractCols_ok hcols]
    simp
  have hT : alookup s.attrs "t" = none := by
    rw [hs, FASToutput.alookup_bindColumns_not_mem _ _ _ _ _ ht]
    rfl
  have hTerr : s.getattrD "t" = .error (.attributeError "t") :=
    getattrD_error_of_none s "t" hT
  obtain ⟨c, hcmem⟩ :=
    @mem_zip_left String (List ℚ) f.namesLine cols name hn (by omega)
  have hWF0 : FASToutput.WFrefs
      ⟨f.namesLine, f.unitsLine.map stripParens, [], [], [], f.rows.length⟩ := by
    intro p hp
    simp at hp
  have hname : s.getattrD name = .ok c := by
    rw [hs]
    exact FASToutput.getattrD_bindColumns_mem _ _ _ _ _ _ hnd hWF0
      (le_of_eq hlen) hcmem
  have hlp : ∀ (fcArg : Option ℚ) (ordArg : Nat),
      s.low_pass_filtered_mean name fcArg ordArg filt
        = (s, .error (.attributeError "t")) := by
    intro fcArg ordArg
    simp [FASToutput.low_pass_filtered_mean, hname, hTerr]
  refine ⟨?_, ?_, ?_⟩
  · simp [FASToutput.running_mean, hTerr]
  · rw [hlp (some fc) ord]
  · intro hm
    have hM : alookup s.attrs (name ++ "_mean") = none := by
      rw [hs, FASToutput.alookup_bindColumns_not_mem _ _ _ _ _ hm]
      rfl
    simp [FASToutput.fluctuations, hM, hlp none 2]

/-- Output file with `Time` and `RotPwr` channels only (no `t`). -/
def cFile10 : OutFile := ⟨["Time", "RotPwr"], ["(s)", "(kW)"], [[0, 1], [1, 2]]⟩

/-- The table parsed from `cFile10` without default aliases. -/
def s10 : FASToutput :=
  (FASToutput.readFASToutput cFile10 false).toOption.getD emptyFAST

/-- Witness for C10 on a concrete aliasless table. -/
theorem t_alias_required_witness :
    FASToutput.readFASToutput cFile10 false = .ok s10 ∧
    (s10.running_mean "RotPwr" 1).2 = .error (.attributeError "t") ∧
    (s10.low_pass_filtered_mean "RotPwr" (some 1) 2 (fun _ _ d => d)).2
      = .error (.attributeError "t") ∧
    (s10.fluctuations "RotPwr" none (fun _ _ d => d)).2
      = .error (.attributeError "t") :=
  ⟨by decide,
   (t_alias_required cFile10 s10 "RotPwr" 1 1 2 (fun _ _ d => d) (by decide)
     (by decide) (by decide) (by decide)).1,
   (t_alias_required cFile10 s10 "RotPwr" 1 1 2 (fun _ _ d => d) (by decide)
     (by decide) (by decide) (by decide)).2.1,
   (t_alias_required cFile10 s10 "RotPwr" 1 1 2 (fun _ _ d => d) (by decide)
     (by decide) (by decide) (by decide)).2.2 (by decide)⟩

/-! ## Claim C2 — parse-then-export round trip -/

theorem snd_mem_of_mem_zip {α β : Type} :
    ∀ {l : List α} {l2 : List β} {a : α} {b : β}, (a, b) ∈ l.zip l2 → b ∈ l2 := by
  intro l
  induction l with
  | nil => intro l2 a b h; simp at h
  | cons x xs ih =>
    intro l2 a b h
    cases l2 with
    | nil => simp at h
    | cons y ys =>
      rcases (by simpa using h : a = x ∧ b = y ∨ (a, b) ∈ xs.zip ys) with ⟨_, rfl⟩ | h2
      · exact List.mem_cons_self _ _
      · exact List.mem_cons_of_mem _ (ih h2)

/-- The columns of the parsed data matrix, as `_readASCII`+`loadtxt`
deliver them: column `i` collects entry `i` of every row. -/
def parsedCols (f : OutFile) : List (List ℚ) :=
  (List.range f.namesLine.length).map (fun i => f.rows.map (fun r => r.getD i 0))

theorem parsedCols_length {f : OutFile} : ∀ c ∈ parsedCols f, c.length = f.rows.length := by
  intro c hc
  simp only [parsedCols, List.mem_map, List.mem_range] at hc
  obtain ⟨i, _, rfl⟩ := hc
  simp

theorem parsedCols_count {f : OutFile} : (parsedCols f).length = f.namesLine.length := by
  simp [parsedCols]

/-- `buildCols` with a fixed frame length succeeds and produces the
name/column pairs in order. -/
theorem buildCols_ok (s : FASToutput) (L : Nat) :
    ∀ (l : List String) (cl : List (List ℚ)), l.length = cl.length →
      (∀ p ∈ l.zip cl, s.getattrD p.1 = .ok p.2 ∧ p.2.length = L) →
      s.buildCols l (some L) = .ok (l.zip cl) := by
  intro l
  induction l with
  | nil => intro cl _ _; rfl
  | cons n ns ih =>
    intro cl hlen hall
    cases cl with
    | nil => simp at hlen
    | cons c cs =>
      have hhead := hall (n, c) (by simp)
      simp only [FASToutput.buildCols, hhead.1]
      rw [if_pos hhead.2]
      rw [ih cs (by simpa using hlen) (fun p hp => hall p (List.mem_cons_of_mem _ hp))]
      rfl

/-- `buildCols` from the empty frame (the `pd.DataFrame()` start): the
first column fixes the length. -/
theorem buildCols_ok_none (s : FASToutput) (L : Nat) (l : List String)
    (cl : List (List ℚ)) (hlen : l.length = cl.length)
    (hall : ∀ p ∈ l.zip cl, s.getattrD p.1 = .ok p.2 ∧ p.2.length = L) :
    s.buildCols l none = .ok (l.zip cl) := by
  cases l with
  | nil => rfl
  | cons n ns =>
    cases cl with
    | nil => simp at hlen
    | cons c cs =>
      have hhead := hall (n, c) (by simp)
      simp only [FASToutput.buildCols, hhead.1, hhead.2]
      rw [buildCols_ok s L ns cs (by simpa using hlen)
        (fun p hp => hall p (List.mem_cons_of_mem _ hp))]
      rfl

/-- In the freshly parsed state, every name reads back as its column. -/
theorem getattrD_parsedState (f : OutFile) (hnd : f.namesLine.Nodup)
    (hulen : f.namesLine.length ≤ (f.unitsLine.map stripParens).length) :
    ∀ p ∈ f.namesLine.zip (parsedCols f),
      (FASToutput.bindColumns
          ⟨f.namesLine, f.unitsLine.map stripParens, [], [], [], f.rows.length⟩
          f.namesLine (parsedCols f) (f.unitsLine.map stripParens)).getattrD p.1
        = .ok p.2 := by
  intro p hp
  obtain ⟨a, b⟩ := p
  exact FASToutput.getattrD_bindColumns_mem _ _ _ _ a b hnd
    (fun q hq => by simp at hq) hulen hp

/-- Under well-formedness (distinct names, `Time` present, matching unit
count, at least two rows and two columns, rectangular rows), the
aliasless parse succeeds and yields exactly the bound-columns state. -/
theorem readFASToutput_false_ok (f : OutFile)
    (hnd : f.namesLine.Nodup)
    (htime : "Time" ∈ f.namesLine)
    (hunits : f.unitsLine.length = f.namesLine.length)
    (hrows2 : 2 ≤ f.rows.length)
    (hcols2 : 2 ≤ f.namesLine.length)
    (hrect : ∀ r ∈ f.rows, r.length = f.namesLine.length) :
    FASToutput.readFASToutput f false
      = .ok (FASToutput.bindColumns
          ⟨f.namesLine, f.unitsLine.map stripParens, [], [], [], f.rows.length⟩
          f.namesLine (parsedCols f) (f.unitsLine.map stripParens)) := by
  have hustrip : (f.unitsLine.map stripParens).length = f.namesLine.length := by
    simp [hunits]
  have hemp : f.rows.isEmpty = false := by
    cases hr : f.rows with
    | nil => rw [hr] at hrows2; simp at hrows2
    | cons a l => rfl
  have hheadlen : (f.rows.headD []).length = f.namesLine.length := by
    cases hr : f.rows with
    | nil => rw [hr] at hrows2; simp at hrows2
    | cons a l =>
      have := hrect a (by rw [hr]; exact List.mem_cons_self _ _)
      simp [this]
  have hall : (f.rows.all fun r => r.length = (f.rows.headD []).length) = true := by
    rw [List.all_eq_true]
    intro r hr
    rw [decide_eq_true_eq, hrect r hr, hheadlen]
  have hra : readASCII f
      = .ok (f.namesLine, f.unitsLine.map stripParens, f.rows, f.rows.length) := by
    unfold readASCII
    rw [if_neg (by omega), if_neg (by simp [hemp]), if_pos hall]
  have hec : extractCols f.rows f.namesLine.length = .ok (parsedCols f) := by
    unfold extractCols
    rw [if_neg (by push_neg; exact ⟨by omega, by rw [hheadlen]; omega⟩),
      if_pos (by rw [hheadlen])]
    rfl
  obtain ⟨ct, hctmem⟩ :=
    @mem_zip_left String (List ℚ) f.namesLine (parsedCols f) "Time" htime
      (by rw [parsedCols_count])
  have hgetTime :
      (FASToutput.bindColumns
          ⟨f.namesLine, f.unitsLine.map stripParens, [], [], [], f.rows.length⟩
          f.namesLine (parsedCols f) (f.unitsLine.map stripParens)).getattrD "Time"
        = .ok ct :=
    getattrD_parsedState f hnd (le_of_eq hustrip.symm) _ hctmem
  have hctlen : ct.length = f.rows.length :=
    parsedCols_length ct (snd_mem_of_mem_zip hctmem)
  simp only [FASToutput.readFASToutput, hra, hec, hgetTime]
  rw [if_pos hctlen]
  rfl

/-- Claim C2: parsing a well-formed file (distinct names, `Time` present,
unit count matching, rectangular, and at least two rows and two columns —
see `parse_single_row_fails` for why single-row files are excluded) and
exporting with `to_pandas` yields a frame whose index is the parsed
`Time` column and whose columns are exactly the other parsed name/column
pairs, in order — the composition is the identity on channel data. -/
theorem parse_to_pandas_roundtrip (f : OutFile)
    (hnd : f.namesLine.Nodup)
    (htime : "Time" ∈ f.namesLine)
    (hunits : f.unitsLine.length = f.namesLine.length)
    (hrows2 : 2 ≤ f.rows.length)
    (hcols2 : 2 ≤ f.namesLine.length)
    (hrect : ∀ r ∈ f.rows, r.length = f.namesLine.length) :
    ∃ s df, FASToutput.readFASToutput f false = .ok s ∧ s.to_pandas = .ok df ∧
      df.indexName = "Time" ∧
      alookup (f.namesLine.zip (parsedCols f)) "Time" = some df.index ∧
      df.cols = removeKey (f.namesLine.zip (parsedCols f)) "Time" := by
  have hustrip : (f.unitsLine.map stripParens).length = f.namesLine.length := by
    simp [hunits]
  have hparse := readFASToutput_false_ok f hnd htime hunits hrows2 hcols2 hrect
  have hget := getattrD_parsedState f hnd (le_of_eq hustrip.symm)
  have houtputs :
      (FASToutput.bindColumns
          ⟨f.namesLine, f.unitsLine.map stripParens, [], [], [], f.rows.length⟩
          f.namesLine (parsedCols f) (f.unitsLine.map stripParens)).outputs
        = f.namesLine := by
    rw [FASToutput.bindColumns_outputs]
  have hbc :
      (FASToutput.bindColumns
          ⟨f.namesLine, f.unitsLine.map stripParens, [], [], [], f.rows.length⟩
          f.namesLine (parsedCols f) (f.unitsLine.map stripParens)).buildCols
          f.namesLine none
        = .ok (f.namesLine.zip (parsedCols f)) :=
    buildCols_ok_none _ f.rows.length _ _ (by rw [parsedCols_count])
      (fun p hp => ⟨hget p hp,
        parsedCols_length p.2 (by
          obtain ⟨a, b⟩ := p
          exact snd_mem_of_mem_zip hp)⟩)
  obtain ⟨ct, hctmem⟩ :=
    @mem_zip_left String (List ℚ) f.namesLine (parsedCols f) "Time" htime
      (by rw [parsedCols_count])
  obtain ⟨v, hv⟩ := alookup_isSome_of_mem hctmem
  refine ⟨_, ⟨"Time", v, removeKey (f.namesLine.zip (parsedCols f)) "Time"⟩,
    hparse, ?_, rfl, hv, rfl⟩
  simp only [FASToutput.to_pandas, houtputs, hbc, hv]

/-- Well-formed file with a single data row. -/
def cFile2one : OutFile := ⟨["Time", "Power"], ["(s)", "(kW)"], [[0, 10]]⟩

/-- Claim C2 counterexample: a well-formed file per the format (matching
name/unit counts, `Time` present, one rectangular data row — the format
puts no lower bound on the row count) on which the parse itself fails:
`np.loadtxt` collapses the single row to a 1-D array, so the column
extraction `data[:,i]` raises `IndexError` and no table is produced at
all, let alone a round-tripping one. -/
theorem parse_single_row_fails :
    FASToutput.readFASToutput cFile2one false = .error .indexError ∧
    cFile2one.namesLine.length = cFile2one.unitsLine.length ∧
    "Time" ∈ cFile2one.namesLine ∧
    (∀ r ∈ cFile2one.rows, r.length = cFile2one.namesLine.length) := by decide

/-- The spec §8 scenario file: names `Time Power`, units `(s) (kW)`,
rows `0 10; 1 20; 2 15`. -/
def cFile2 : OutFile := ⟨["Time", "Power"], ["(s)", "(kW)"], [[0, 10], [1, 20], [2, 15]]⟩

/-- Witness for C2 at the spec's §8 scenario. -/
theorem parse_to_pandas_roundtrip_witness :
    ∃ s df, FASToutput.readFASToutput cFile2 false = .ok s ∧ s.to_pandas = .ok df ∧
      df.indexName = "Time" ∧
      alookup (cFile2.namesLine.zip (parsedCols cFile2)) "Time" = some df.index ∧
      df.cols = removeKey (cFile2.namesLine.zip (parsedCols cFile2)) "Time" :=
  parse_to_pandas_roundtrip cFile2 (by decide) (by decide) (by decide) (by decide)
    (by decide) (by decide)

/-! ## Convolution lemmas (boxcar kernel) -/

theorem getD_replicate {x : ℚ} : ∀ {n i : Nat}, i < n → (List.replicate n x).getD i 0 = x := by
  intro n
  induction n with
  | zero => intro i h; omega
  | succ k ih =>
    intro i h
    cases i with
    | zero => rfl
    | succ j => exact ih (by omega)

theorem isEmpty_false_of_length {α : Type} {l : List α} (h : 0 < l.length) :
    l.isEmpty = false := by
  cases l with
  | nil => simp at h
  | cons a t => rfl

theorem take_eq_range_getD (b : List ℚ) (n : Nat) (h : n ≤ b.length) :
    b.take n = (List.range n).map (fun i => b.getD i 0) := by
  apply List.ext_getElem
  · simp [h]
  · intro i h1 h2
    simp only [List.getElem_take, List.getElem_map, List.getElem_range]
    rw [List.getD_eq_getElem?_getD, List.getElem?_eq_getElem (by simp at h1 ⊢; omega)]
    rfl

theorem drop_getD (b : List ℚ) (k i : Nat) : (b.drop k).getD i 0 = b.getD (k + i) 0 := by
  rw [List.getD_eq_getElem?_getD, List.getD_eq_getElem?_getD, List.getElem?_drop]

/-- `np.convolve` with the boxcar kernel `np.ones(n)/n` computes windowed
averages: entry `k` is the mean of the `n`-wide window of `a` at `k`. -/
theorem convCore_replicate (a : List ℚ) (n : Nat) (hn : 1 ≤ n) (hna : n ≤ a.length) :
    convCore a (List.replicate n (1 / (n : ℚ)))
      = (List.range (a.length - n + 1)).map
          (fun k => ((a.drop k).take n).sum / (n : ℚ)) := by
  unfold convCore
  rw [List.length_replicate]
  apply List.map_congr_left
  intro k hk
  have hk2 : k + n ≤ a.length := by
    simp only [List.mem_range] at hk
    omega
  have h1 : ∀ i ∈ List.range n,
      a.getD (k + i) 0 * (List.replicate n ((1 : ℚ) / n)).getD (n - 1 - i) 0
        = (a.drop k).getD i 0 * (1 / (n : ℚ)) := by
    intro i hi
    simp only [List.mem_range] at hi
    rw [getD_replicate (by omega), drop_getD]
  rw [List.map_congr_left h1]
  have h2 : (List.range n).map (fun i => (a.drop k).getD i 0 * (1 / (n : ℚ)))
      = ((List.range n).map (fun i => (a.drop k).getD i 0)).map
          (fun x => x * (1 / (n : ℚ))) := by
    rw [List.map_map]
    rfl
  rw [h2, ← take_eq_range_getD _ _ (by simp; omega)]
  rw [List.sum_map_mul_right]
  simp [mul_one_div]
  rw [div_eq_mul_inv]


/-! ## Claims C1 and C8 — `running_mean` -/

/-- Hand-built table: `Time` and its alias `t` share array `[0,1,2,3,4]`
(Δt = 1 s), channel `x = [1,2,3,4,5]`. -/
def cTbl : FASToutput :=
  ⟨["Time", "t", "x"], ["s", "s", "-"], [("Time", 0), ("t", 0), ("x", 1)],
   [("Time", "s"), ("t", "s"), ("x", "-")], [[0, 1, 2, 3, 4], [1, 2, 3, 4, 5]], 5⟩

/-- Claim C1 (amended): `running_mean` computes the window sample count by
*truncation*, `N = int(windowSeconds/Δt)` with `Δt = t[1] - t[0]` (not by
rounding), registers the boxcar windowed average under `<name>_mean`, and
— in range (`1 ≤ N`, `N + 2 ≤ len(t)`, channel as long as the time axis) —
the output length is exactly `inputLength − N + 1` and entry `k` is the
mean of the `N`-wide window at `k`. -/
theorem running_mean_amended (s : FASToutput) (name : String) (w : ℚ)
    (tl data : List ℚ)
    (ht : s.getattrD "t" = .ok tl)
    (hd : s.getattrD name = .ok data)
    (hlen2 : 2 ≤ tl.length)
    (hdt : tl.getD 1 0 - tl.getD 0 0 ≠ 0)
    (hdlen : data.length = tl.length)
    (hN1 : 1 ≤ pyInt (w / (tl.getD 1 0 - tl.getD 0 0)))
    (hN2 : (pyInt (w / (tl.getD 1 0 - tl.getD 0 0))).toNat + 2 ≤ tl.length)
    (hfresh : name ++ "_mean" ∉ s.outputs) :
    ∃ s2 mean,
      s.running_mean name w = (s2, .ok mean) ∧
      mean = (List.range
          (data.length - (pyInt (w / (tl.getD 1 0 - tl.getD 0 0))).toNat + 1)).map
        (fun k => ((data.drop k).take
            (pyInt (w / (tl.getD 1 0 - tl.getD 0 0))).toNat).sum
          / (((pyInt (w / (tl.getD 1 0 - tl.getD 0 0))).toNat : ℚ))) ∧
      mean.length
        = data.length - (pyInt (w / (tl.getD 1 0 - tl.getD 0 0))).toNat + 1 ∧
      s2.getattrD (name ++ "_mean") = .ok mean := by
  set nn := (pyInt (w / (tl.getD 1 0 - tl.getD 0 0))).toNat with hnn
  have hn1 : 1 ≤ nn := by omega
  have hc1 : ¬ tl.length < 2 := by omega
  have hc2 : ¬ pyInt (w / (tl.getD 1 0 - tl.getD 0 0)) ≤ 0 := by omega
  have hdne : data.isEmpty = false := isEmpty_false_of_length (by omega)
  have hkne : (List.replicate nn ((1 : ℚ) / nn)).isEmpty = false :=
    isEmpty_false_of_length (by rw [List.length_replicate]; omega)
  have hconv : convolveValid data (List.replicate nn (1 / (nn : ℚ)))
      = .ok ((List.range (data.length - nn + 1)).map
          (fun k => ((data.drop k).take nn).sum / (nn : ℚ))) := by
    unfold convolveValid
    rw [if_neg (by simp [hdne, hkne] <;> omega),
      if_pos (by rw [List.length_replicate]; omega)]
    rw [convCore_replicate data nn hn1 (by omega)]
  have hc3 : ¬ tl.length ≤ nn + 1 := by omega
  have heq : s.running_mean name w
      = (FASToutput.addOutput
          (s.alloc ((List.range (data.length - nn + 1)).map
            (fun k => ((data.drop k).take nn).sum / (nn : ℚ)))).2
          (name ++ "_mean")
          (s.alloc ((List.range (data.length - nn + 1)).map
            (fun k => ((data.drop k).take nn).sum / (nn : ℚ)))).1 none,
        .ok ((List.range (data.length - nn + 1)).map
          (fun k => ((data.drop k).take nn).sum / (nn : ℚ)))) := by
    simp only [FASToutput.running_mean, ht, hd, ← hnn, hconv]
    rw [if_neg hc1, if_neg hdt, if_neg hc2, if_neg hc3]
  exact ⟨_, _, heq, rfl, by simp,
    FASToutput.getattrD_addOutput_alloc s _ none hfresh⟩

unseal Rat.add Rat.sub Rat.mul Rat.inv in
/-- Witness for the amended C1: on `cTbl` with a 2 s window, `N = 2` and
the registered mean has length 5 − 2 + 1 = 4. -/
theorem running_mean_amended_witness :
    ∃ s2 mean, cTbl.running_mean "x" 2 = (s2, .ok mean) ∧
      mean.length = 5 - 2 + 1 ∧ s2.getattrD ("x" ++ "_mean") = .ok mean := by
  obtain ⟨s2, mean, h1, _, h3, h4⟩ :=
    running_mean_amended cTbl "x" 2 [0, 1, 2, 3, 4] [1, 2, 3, 4, 5] (by decide)
      (by decide) (by decide) (by decide) (by decide) (by decide) (by decide)
      (by decide)
  refine ⟨s2, mean, h1, ?_, h4⟩
  rw [h3]
  decide

unseal Rat.add Rat.sub Rat.mul Rat.inv in
/-- Claim C1 counterexample: with Δt = 1 s and windowSeconds = 1.9 s the
claim's `N = round(1.9) = 2` predicts output length 5 − 2 + 1 = 4, but the
code truncates (`int(1.9) = 1`) and produces the full-length output 5. -/
theorem running_mean_round_counterexample :
    (cTbl.running_mean "x" (19 / 10)).2 = .ok [1, 2, 3, 4, 5] ∧
    (round ((19 : ℚ) / 10 / 1) : ℤ) = 2 ∧
    ([1, 2, 3, 4, 5] : List ℚ).length
      ≠ 5 - ((round ((19 : ℚ) / 10 / 1) : ℤ)).toNat + 1 := by decide

/-- Claim C8 (amended): with the time axis bound and a channel as long as
it, `running_mean` succeeds exactly when `1 ≤ N` and `N + 2 ≤ len(t)`
(`N = int(windowSeconds/Δt)`).  It performs no parameter validation of its
own: `windowSeconds ≤ 0` makes `N ≤ 0` and `numpy` rejects the kernel;
`N = len(t) − 1`, `N = len(t)` and every `N > inputLength` raise
`IndexError` at the post-registration log line `self.t[N+1]`. -/
theorem running_mean_success_iff (s : FASToutput) (name : String) (w : ℚ)
    (tl data : List ℚ)
    (ht : s.getattrD "t" = .ok tl)
    (hd : s.getattrD name = .ok data)
    (hlen2 : 2 ≤ tl.length)
    (hdt : tl.getD 1 0 - tl.getD 0 0 ≠ 0)
    (hdlen : data.length = tl.length) :
    (∃ m, (s.running_mean name w).2 = .ok m) ↔
      1 ≤ pyInt (w / (tl.getD 1 0 - tl.getD 0 0)) ∧
        (pyInt (w / (tl.getD 1 0 - tl.getD 0 0))).toNat + 2 ≤ tl.length := by
  have hc1 : ¬ tl.length < 2 := by omega
  by_cases hN : pyInt (w / (tl.getD 1 0 - tl.getD 0 0)) ≤ 0
  · have herr : (s.running_mean name w).2 = .error .valueError := by
      simp only [FASToutput.running_mean, ht, hd]
      rw [if_neg hc1, if_neg hdt, if_pos hN]
    constructor
    · rintro ⟨m, hm⟩
      rw [herr] at hm
      cases hm
    · rintro ⟨h1, _⟩
      omega
  · push_neg at hN
    set nn := (pyInt (w / (tl.getD 1 0 - tl.getD 0 0))).toNat with hnn
    have hn1 : 1 ≤ nn := by omega
    have hNne : ¬ pyInt (w / (tl.getD 1 0 - tl.getD 0 0)) ≤ 0 := by omega
    have hdne : data.isEmpty = false := isEmpty_false_of_length (by omega)
    have hkne : (List.replicate nn ((1 : ℚ) / nn)).isEmpty = false :=
      isEmpty_false_of_length (by rw [List.length_replicate]; omega)
    by_cases hswap : nn ≤ data.length
    · have hconv : convolveValid data (List.replicate nn (1 / (nn : ℚ)))
          = .ok (convCore data (List.replicate nn (1 / (nn : ℚ)))) := by
        unfold convolveValid
        rw [if_neg (by simp [hdne, hkne] <;> omega),
          if_pos (by rw [List.length_replicate]; omega)]
      by_cases hidx : tl.length ≤ nn + 1
      · have herr : (s.running_mean name w).2 = .error .indexError := by
          simp only [FASToutput.running_mean, ht, hd, ← hnn, hconv]
          rw [if_neg hc1, if_neg hdt, if_neg hNne, if_pos hidx]
        constructor
        · rintro ⟨m, hm⟩
          rw [herr] at hm
          cases hm
        · rintro ⟨_, h2⟩
          omega
      · have hok : (s.running_mean name w).2
            = .ok (convCore data (List.replicate nn (1 / (nn : ℚ)))) := by
          simp only [FASToutput.running_mean, ht, hd, ← hnn, hconv]
          rw [if_neg hc1, if_neg hdt, if_neg hNne, if_neg hidx]
        exact ⟨fun _ => ⟨by omega, by omega⟩, fun _ => ⟨_, hok⟩⟩
    · have hconv : convolveValid data (List.replicate nn (1 / (nn : ℚ)))
          = .ok (convCore (List.replicate nn (1 / (nn : ℚ))) data) := by
        unfold convolveValid
        rw [if_neg (by simp [hdne, hkne] <;> omega),
          if_neg (by rw [List.length_replicate]; omega)]
      have hidx : tl.length ≤ nn + 1 := by omega
      have herr : (s.running_mean name w).2 = .error .indexError := by
        simp only [FASToutput.running_mean, ht, hd, ← hnn, hconv]
        rw [if_neg hc1, if_neg hdt, if_neg hNne, if_pos hidx]
      constructor
      · rintro ⟨m, hm⟩
        rw [herr] at hm
        cases hm
      · rintro ⟨_, h2⟩
        omega

unseal Rat.add Rat.sub Rat.mul Rat.inv in
/-- Witness for the amended C8: on `cTbl`, a 3 s window (`N = 3`,
`N + 2 = 5 ≤ len(t)`) succeeds. -/
theorem running_mean_success_iff_witness :
    (1 ≤ pyInt ((3 : ℚ) / (([0, 1, 2, 3, 4] : List ℚ).getD 1 0
        - ([0, 1, 2, 3, 4] : List ℚ).getD 0 0)) ∧
      (pyInt ((3 : ℚ) / (([0, 1, 2, 3, 4] : List ℚ).getD 1 0
        - ([0, 1, 2, 3, 4] : List ℚ).getD 0 0))).toNat + 2
        ≤ ([0, 1, 2, 3, 4] : List ℚ).length) ∧
    ∃ m, (cTbl.running_mean "x" 3).2 = .ok m :=
  ⟨⟨by decide, by decide⟩,
    (running_mean_success_iff cTbl "x" 3 [0, 1, 2, 3, 4] [1, 2, 3, 4, 5] (by decide)
      (by decide) (by decide) (by decide) (by decide)).mpr ⟨by decide, by decide⟩⟩

unseal Rat.add Rat.sub Rat.mul Rat.inv in
/-- Claim C8 counterexample: windowSeconds = 5 s gives `N = 5` with
`1 ≤ N ≤ inputLength = 5`, so the claim says the call succeeds — but the
code raises `IndexError` (from `self.t[N+1]`).  Moreover for
windowSeconds = 6 s (`N = 6 > inputLength`, where the claim demands a
clean `InvalidParameterError`) the code first *registers* a spurious
swapped-convolution channel `x_mean = [5/2, 5/2]` and only then raises. -/
theorem running_mean_validation_counterexample :
    (cTbl.running_mean "x" 5).2 = .error .indexError ∧
    pyInt ((5 : ℚ) / 1) = 5 ∧
    (1 : ℤ) ≤ 5 ∧ ((5 : ℤ)).toNat ≤ ([1, 2, 3, 4, 5] : List ℚ).length ∧
    (cTbl.running_mean "x" 6).2 = .error .indexError ∧
    (cTbl.running_mean "x" 6).1.getattrD "x_mean" = .ok [5 / 2, 5 / 2] := by decide

/-! ## Claim C6 — `fluctuations` alignment -/

theorem length_pos_of_two_le {α : Type} {l : List α} (h : 2 ≤ l.length) :
    0 < l.length := by omega

/-- With an explicitly given (and bound) mean channel, `fluctuations`
reduces to trim-then-subtract-then-register. -/
theorem fluctuations_some_eq (s : FASToutput) (name mname : String)
    (data mean : List ℚ) (filt : Nat → Option ℚ → List ℚ → List ℚ)
    (hd : s.getattrD name = .ok data)
    (hm : s.getattrD mname = .ok mean) :
    s.fluctuations name (some mname) filt
      = (match npSub
            (if mean.length < data.length then
              pyTrimSym data ((data.length - mean.length) / 2)
            else data) mean with
        | .error e => (s, .error e)
        | .ok fluc =>
          (FASToutput.addOutput (s.alloc fluc).2 (name ++ "_fluc")
            (s.alloc fluc).1 none, .ok fluc)) := by
  simp only [FASToutput.fluctuations, hd, hm]

/-- Claim C6 (amended): `fluctuations` trims `⌊Navg/2⌋` samples from each
end of the data (`Navg = len(data) − len(mean)`).  When `Navg` is *even*
this removes exactly `Navg` samples symmetrically, the subtraction
proceeds elementwise and the result (of the mean's length) is registered
as `<name>_fluc`.  When the mean is longer than the data (both of length
≥ 2, so no numpy length-1 broadcast applies) the subtraction fails with a
shape error (the spec's `AlignmentError`); no `AlignmentError` check
exists in the code itself.  (For *odd* `Navg` the trim removes only
`Navg − 1` samples — or everything, when `Navg = 1`, since the slice
upper bound `-0` is `0` — and the subtraction generally fails, see the
counterexample.) -/
theorem fluctuations_amended (s : FASToutput) (name mname : String)
    (data mean : List ℚ) (filt : Nat → Option ℚ → List ℚ → List ℚ)
    (hd : s.getattrD name = .ok data)
    (hm : s.getattrD mname = .ok mean)
    (hfresh : name ++ "_fluc" ∉ s.outputs) :
    ((mean.length ≤ data.length ∧ 2 ∣ (data.length - mean.length)) →
      ∃ s2 fl, s.fluctuations name (some mname) filt = (s2, .ok fl) ∧
        fl = List.zipWith (fun x y => x - y)
          ((data.drop ((data.length - mean.length) / 2)).take mean.length) mean ∧
        fl.length = mean.length ∧
        s2.getattrD (name ++ "_fluc") = .ok fl) ∧
    ((data.length < mean.length ∧ 2 ≤ data.length) →
      s.fluctuations name (some mname) filt = (s, .error .valueError)) := by
  constructor
  · rintro ⟨hle, ⟨k, hk⟩⟩
    have htrim : (if mean.length < data.length then
        pyTrimSym data ((data.length - mean.length) / 2)
      else data) = (data.drop ((data.length - mean.length) / 2)).take mean.length := by
      by_cases hlt : mean.length < data.length
      · rw [if_pos hlt]
        have hk1 : 1 ≤ k := by omega
        have hh : (data.length - mean.length) / 2 = k := by omega
        rw [pyTrimSym, if_neg (by omega), hh]
        rw [List.drop_take]
        congr 1
        omega
      · rw [if_neg hlt]
        have : mean.length = data.length := by omega
        have hh : (data.length - mean.length) / 2 = 0 := by omega
        rw [hh, List.drop_zero, this, List.take_length]
    have hlensub : ((data.drop ((data.length - mean.length) / 2)).take
        mean.length).length = mean.length := by
      simp
      omega
    have hsub : npSub ((data.drop ((data.length - mean.length) / 2)).take
        mean.length) mean = .ok (List.zipWith (fun x y => x - y)
          ((data.drop ((data.length - mean.length) / 2)).take mean.length) mean) := by
      unfold npSub
      rw [if_pos hlensub]
    have heq : s.fluctuations name (some mname) filt
        = (FASToutput.addOutput
            (s.alloc (List.zipWith (fun x y => x - y)
              ((data.drop ((data.length - mean.length) / 2)).take mean.length)
              mean)).2
            (name ++ "_fluc")
            (s.alloc (List.zipWith (fun x y => x - y)
              ((data.drop ((data.length - mean.length) / 2)).take mean.length)
              mean)).1 none,
          .ok (List.zipWith (fun x y => x - y)
            ((data.drop ((data.length - mean.length) / 2)).take mean.length)
            mean)) := by
      rw [fluctuations_some_eq s name mname data mean filt hd hm, htrim, hsub]
    exact ⟨_, _, heq, rfl, by simp; omega,
      FASToutput.getattrD_addOutput_alloc s _ none hfresh⟩
  · rintro ⟨hlt, h2⟩
    have hsub : npSub data mean = .error .valueError := by
      unfold npSub
      rw [if_neg (by omega), if_neg (by omega), if_neg (by omega)]
    rw [fluctuations_some_eq s name mname data mean filt hd hm,
      if_neg (by omega), hsub]

/-- Table with `x = [1,2,3,4,5,6]` and `x_mean = [10,20]` (even
`Navg = 4`). -/
def cT6b : FASToutput :=
  ⟨["x", "x_mean"], [], [("x", 0), ("x_mean", 1)], [],
   [[1, 2, 3, 4, 5, 6], [10, 20]], 6⟩

unseal Rat.add Rat.sub Rat.mul Rat.inv in
/-- Witness for the amended C6: `Navg = 4`, two samples cut from each end
of `[1..6]`, elementwise difference with `[10,20]` gives `[-7,-16]`. -/
theorem fluctuations_amended_witness :
    ∃ s2 fl, cT6b.fluctuations "x" (some "x_mean") (fun _ _ d => d) = (s2, .ok fl) ∧
      fl = [-7, -16] ∧ s2.getattrD ("x" ++ "_fluc") = .ok fl := by
  obtain ⟨s2, fl, h1, h2, _, h4⟩ :=
    (fluctuations_amended cT6b "x" "x_mean" [1, 2, 3, 4, 5, 6] [10, 20]
      (fun _ _ d => d) (by decide) (by decide) (by decide)).1
      ⟨by decide, by decide⟩
  refine ⟨s2, fl, h1, ?_, h4⟩
  rw [h2]
  decide

/-- Table with `x = [1,2,3,4,5]` and `x_mean = [10,20]` (odd `Navg = 3`). -/
def cT6 : FASToutput :=
  ⟨["x", "x_mean"], [], [("x", 0), ("x_mean", 1)], [],
   [[1, 2, 3, 4, 5], [10, 20]], 5⟩

unseal Rat.add Rat.sub Rat.mul Rat.inv in
/-- Claim C6 counterexample: with data length 5 and mean length 2 the
mean is *not* longer than the data, so per the claim `fluctuations` must
trim `Navg = 3` samples symmetrically, subtract and register `x_fluc` —
but the integer-division trim removes one sample per side, leaving length
3 against 2, and the subtraction fails (`ValueError`); nothing is
registered. -/
theorem fluctuations_odd_gap_counterexample :
    ([10, 20] : List ℚ).length ≤ ([1, 2, 3, 4, 5] : List ℚ).length ∧
    cT6.fluctuations "x" (some "x_mean") (fun _ _ d => d)
      = (cT6, .error .valueError) ∧
    alookup (cT6.fluctuations "x" (some "x_mean") (fun _ _ d => d)).1.attrs
      "x_fluc" = none := by decide

/-! ## Claim C7 — `vector_magnitude` -/

theorem getD_zipWith_add (xs ys : List ℚ) (i : Nat) (hx : i < xs.length)
    (hy : i < ys.length) :
    (List.zipWith (fun a b => a + b) xs ys).getD i 0 = xs.getD i 0 + ys.getD i 0 := by
  induction xs generalizing ys i with
  | nil => simp at hx
  | cons x xs ih =>
    cases ys with
    | nil => simp at hy
    | cons y ys =>
      cases i with
      | zero => rfl
      | succ j => exact ih ys j (by simpa using hx) (by simpa using hy)

theorem getD_map_mul_self (d : List ℚ) (i : Nat) (h : i < d.length) :
    (d.map (fun x => x * x)).getD i 0 = d.getD i 0 * d.getD i 0 := by
  rw [List.getD_eq_getElem?_getD, List.getElem?_map, List.getElem?_eq_getElem h,
    List.getD_eq_getElem?_getD, List.getElem?_eq_getElem h]
  rfl

/-- The whole list, read back entry by entry. -/
theorem self_eq_range_getD (b : List ℚ) :
    b = (List.range b.length).map (fun i => b.getD i 0) := by
  have := take_eq_range_getD b b.length (le_refl _)
  rwa [List.take_length] at this

/-- The accumulation loop of `vector_magnitude`: starting from an
accumulator of the common length, it adds every component's square
pointwise. -/
theorem accumSquares_ok (s : FASToutput) :
    ∀ (cs : List String) (ds : List (List ℚ)) (acc : List ℚ) (L : Nat),
      cs.length = ds.length → acc.length = L →
      (∀ p ∈ cs.zip ds,
        p.1 ∈ s.outputs ∧ s.getattrD p.1 = .ok p.2 ∧ p.2.length = L) →
      s.accumSquares cs (some acc)
        = .ok (some ((List.range L).map (fun i =>
            acc.getD i 0 + (ds.map (fun d => d.getD i 0 * d.getD i 0)).sum))) := by
  intro cs
  induction cs with
  | nil =>
    intro ds acc L hlen hacc _
    cases ds with
    | nil =>
      simp only [FASToutput.accumSquares, List.map_nil, List.sum_nil, add_zero]
      rw [← hacc, ← self_eq_range_getD]
    | cons d ds => simp at hlen
  | cons c cs ih =>
    intro ds acc L hlen hacc hall
    cases ds with
    | nil => simp at hlen
    | cons d ds =>
      have hc := hall (c, d) (by simp)
      have hdL : d.length = L := hc.2.2
      have hgi : s.getitem c = .ok d := by
        simp [FASToutput.getitem, hc.1, hc.2.1]
      have hadd : npAdd acc (d.map (fun x => x * x))
          = .ok (List.zipWith (fun a b => a + b) acc (d.map (fun x => x * x))) := by
        unfold npAdd
        rw [if_pos (by simp [hacc, hdL])]
      simp only [FASToutput.accumSquares, hgi, hadd]
      rw [ih ds _ L (by simpa using hlen) (by simp [hacc, hdL])
        (fun p hp => hall p (List.mem_cons_of_mem _ hp))]
      congr 2
      apply List.map_congr_left
      intro i hi
      simp only [List.mem_range] at hi
      rw [getD_zipWith_add _ _ _ (by omega) (by simp; omega),
        getD_map_mul_self d i (by omega)]
      simp [add_assoc]

theorem addOutput_units_some {s : FASToutput} {name : String} (r : Nat) (u : String)
    (h : name ∉ s.outputs) :
    alookup (FASToutput.addOutput s name r (some u)).output_units name = some u := by
  simp [FASToutput.addOutput, h, alookup_aupdate_self]

/-- Claim C7: `vector_magnitude` over a nonempty list of equal-length
components (each a registered channel; the first carrying a unit)
registers, under the given output name, the elementwise square root of
the sum of the squared components, with the unit of the FIRST listed
component.  `sqrtFn` is the abstract elementwise `** 0.5`. -/
theorem vector_magnitude_spec (s : FASToutput) (outputname : String)
    (comps : List String) (datas : List (List ℚ)) (L : Nat) (u : String)
    (sqrtFn : ℚ → ℚ)
    (hne : comps ≠ [])
    (hlen : comps.length = datas.length)
    (hall : ∀ p ∈ comps.zip datas,
      p.1 ∈ s.outputs ∧ s.getattrD p.1 = .ok p.2 ∧ p.2.length = L)
    (hu : alookup s.output_units (comps.headD "") = some u)
    (hfresh : outputname ∉ s.outputs) :
    ∃ s2, s.vector_magnitude outputname comps sqrtFn = (s2, .ok ()) ∧
      s2.getattrD outputname = .ok ((List.range L).map (fun i =>
        sqrtFn ((datas.map (fun d => d.getD i 0 * d.getD i 0)).sum))) ∧
      alookup s2.output_units outputname = some u := by
  cases comps with
  | nil => exact absurd rfl hne
  | cons c0 cs =>
    cases datas with
    | nil => simp at hlen
    | cons d0 ds =>
      have hc0 := hall (c0, d0) (by simp)
      have hd0L : d0.length = L := hc0.2.2
      have hgi : s.getitem c0 = .ok d0 := by
        simp [FASToutput.getitem, hc0.1, hc0.2.1]
      have hacc : s.accumSquares (c0 :: cs) none
          = .ok (some ((List.range L).map (fun i =>
              ((d0 :: ds).map (fun d => d.getD i 0 * d.getD i 0)).sum))) := by
        simp only [FASToutput.accumSquares, hgi]
        rw [accumSquares_ok s cs ds (d0.map (fun x => x * x)) L
          (by simpa using hlen) (by simp [hd0L])
          (fun p hp => hall p (List.mem_cons_of_mem _ hp))]
        congr 2
        apply List.map_congr_left
        intro i hi
        simp only [List.mem_range] at hi
        rw [getD_map_mul_self d0 i (by omega)]
        simp
      have hu0 : alookup s.output_units c0 = some u := hu
      have heq : s.vector_magnitude outputname (c0 :: cs) sqrtFn
          = (FASToutput.addOutput
              (s.alloc (((List.range L).map (fun i =>
                ((d0 :: ds).map (fun d => d.getD i 0 * d.getD i 0)).sum)).map
                  sqrtFn)).2
              outputname
              (s.alloc (((List.range L).map (fun i =>
                ((d0 :: ds).map (fun d => d.getD i 0 * d.getD i 0)).sum)).map
                  sqrtFn)).1 (some u),
            .ok ()) := by
        simp only [FASToutput.vector_magnitude, hacc, hu0, Option.getD_some]
      refine ⟨_, heq, ?_, ?_⟩
      · have := FASToutput.getattrD_addOutput_alloc s
          ((((List.range L).map (fun i =>
            ((d0 :: ds).map (fun d => d.getD i 0 * d.getD i 0)).sum)).map sqrtFn))
          (some u) hfresh
        rw [this, List.map_map]
        rfl
      · exact addOutput_units_some _ u (by simpa [FASToutput.alloc] using hfresh)

/-- Two force components `Fx = [3,3,3]`, `Fy = [4,4,4]`, both in kN. -/
def cT7 : FASToutput :=
  ⟨["Fx", "Fy"], ["kN", "kN"], [("Fx", 0), ("Fy", 1)],
   [("Fx", "kN"), ("Fy", "kN")], [[3, 3, 3], [4, 4, 4]], 3⟩

/-- A square-root primitive adequate for the witness's perfect square. -/
def sq25 : ℚ → ℚ := fun q => if q = 25 then 5 else 0

unseal Rat.add Rat.sub Rat.mul Rat.inv in
/-- Witness for C7 at the spec's example: `sqrt(3² + 4²) = 5` elementwise,
with `Fx`'s unit. -/
theorem vector_magnitude_spec_witness :
    ∃ s2, cT7.vector_magnitude "Fmag" ["Fx", "Fy"] sq25 = (s2, .ok ()) ∧
      s2.getattrD "Fmag" = .ok [5, 5, 5] ∧
      alookup s2.output_units "Fmag" = some "kN" := by
  obtain ⟨s2, h1, h2, h3⟩ :=
    vector_magnitude_spec cT7 "Fmag" ["Fx", "Fy"] [[3, 3, 3], [4, 4, 4]] 3 "kN" sq25
      (by decide) (by decide) (by decide) (by decide) (by decide)
  refine ⟨s2, h1, ?_, h3⟩
  simp only [h2]
  decide

/-! ## Claim C9 — `printStats` rows -/

/-- The statistics loop over an arbitrary list of name/unit pairs: one
row each, computed from the channel's full stored series. -/
theorem statRows_ok (s : FASToutput) (sqrtFn : ℚ → ℚ) (F : String → List ℚ) :
    ∀ l : List (String × String),
      (∀ p ∈ l, s.getattrD p.1 = .ok (F p.1) ∧ F p.1 ≠ []) →
      s.statRows sqrtFn l = .ok (l.map (fun p =>
        ⟨p.1, p.2, listMin (F p.1), listMax (F p.1), listMean (F p.1),
          sqrtFn (listVar (F p.1))⟩)) := by
  intro l
  induction l with
  | nil => intro _; rfl
  | cons p rest ih =>
    intro h
    obtain ⟨o, u⟩ := p
    have hp := h (o, u) (List.mem_cons_self _ _)
    have hget : s.getattrD o = .ok (F o) := hp.1
    cases hF : F o with
    | nil => exact absurd hF hp.2
    | cons d ds =>
      rw [hF] at hget
      simp only [FASToutput.statRows, hget,
        ih (fun q hq => h q (List.mem_cons_of_mem _ hq))]
      simp [hF]

/-- Claim C9 (amended): `printStats` produces one row per entry of
`zip(self.outputs, self.units)` — i.e. per *parsed* channel, since
`self.units` is set once by the parser and never grows — in insertion
order, each row holding the channel's name, unit, `np.min`, `np.max`,
`np.mean` and population `np.std` over the full stored series.  Channels
added after parsing (aliases, derived quantities) have no entry in
`self.units` and are silently *omitted* from the report. -/
theorem printStats_amended (s : FASToutput) (sqrtFn : ℚ → ℚ) (F : String → List ℚ)
    (hall : ∀ p ∈ s.outputs.zip s.units,
      s.getattrD p.1 = .ok (F p.1) ∧ F p.1 ≠ []) :
    s.printStats sqrtFn = .ok ((s.outputs.zip s.units).map (fun p =>
      ⟨p.1, p.2, listMin (F p.1), listMax (F p.1), listMean (F p.1),
        sqrtFn (listVar (F p.1))⟩)) ∧
    (s.outputs.zip s.units).length = min s.outputs.length s.units.length :=
  ⟨statRows_ok s sqrtFn F (s.outputs.zip s.units) hall,
    List.length_zip s.outputs s.units⟩

/-- The table parsed (without aliases) from the spec's §8 scenario file. -/
def s9 : FASToutput :=
  (FASToutput.readFASToutput cFile2 false).toOption.getD emptyFAST

/-- `s9` with a derived channel `Power2x` added via `addOutput` (no unit,
as every derivation does). -/
def cT9 : FASToutput :=
  FASToutput.addOutput (s9.alloc [20, 40, 30]).2 "Power2x"
    (s9.alloc [20, 40, 30]).1 none

unseal Rat.add Rat.sub Rat.mul Rat.inv in
/-- Claim C9 counterexample: after parsing two channels and deriving a
third, the table has three channels but `printStats` reports only the two
parsed ones — `zip(outputs, units)` stops at the unit list, which never
grows. -/
theorem printStats_missing_rows_counterexample :
    FASToutput.readFASToutput cFile2 false = .ok s9 ∧
    cT9.outputs = ["Time", "Power", "Power2x"] ∧
    (cT9.printStats (fun _ => 0)).map (List.map StatRow.name)
      = .ok ["Time", "Power"] := by decide

/-- The channels of `cT9`, as plain data. -/
def F9 : String → List ℚ :=
  fun n => if n = "Time" then [0, 1, 2] else [10, 20, 15]

/-- Witness for the amended C9 on `cT9`. -/
theorem printStats_amended_witness :
    cT9.printStats (fun _ => 0)
      = .ok ((cT9.outputs.zip cT9.units).map (fun p =>
          ⟨p.1, p.2, listMin (F9 p.1), listMax (F9 p.1), listMean (F9 p.1),
            (fun _ => (0 : ℚ)) (listVar (F9 p.1))⟩)) ∧
    (cT9.outputs.zip cT9.units).length = min cT9.outputs.length cT9.units.length :=
  printStats_amended cT9 (fun _ => 0) F9 (by decide)
